import Mathlib

/-!
Verification of the Lighthouse MCP portfolio aggregation engine.

The definitions below are a shallow embedding of the analytic code of the
repository: the portfolio tool of index.ts (asset type breakdown and major
holdings), the yield tool of index.ts (per pool receive/pay USD legs, net
yield and portfolio totals), the performance tool of index.ts (ranked
gainers and losers), the portfolio locator of lighthouse.ts and the
authentication guards of the data fetching methods of lighthouse.ts.

JavaScript numbers are modelled as exact rationals; the special values
produced by dividing by zero are modelled by the ENum type.  JavaScript
Array.prototype.sort with a numeric comparator is a stable sort and is
modelled by List.insertionSort, which is stable.
-/

namespace Lighthouse

/-- A JavaScript number that is either an exact rational or one of the IEEE
special values produced by dividing by zero. -/
inductive ENum where
  | fin (q : ℚ)
  | posInf
  | negInf
  | nan
deriving DecidableEq, Repr

/-- JavaScript division on exact values: the finite quotient when the divisor
is nonzero, otherwise the IEEE special value determined by the sign of the
dividend (x / 0 is Infinity for x > 0, -Infinity for x < 0 and NaN for 0 / 0). -/
def jsDiv (a b : ℚ) : ENum :=
  if b ≠ 0 then .fin (a / b)
  else if 0 < a then .posInf
  else if a < 0 then .negInf
  else .nan

/-- Multiplication of a JavaScript number by the positive constant 100: finite
values scale, Infinity, -Infinity and NaN are preserved. -/
def eMul100 : ENum → ENum
  | .fin q => .fin (q * 100)
  | .posInf => .posInf
  | .negInf => .negInf
  | .nan => .nan

section StableSort

variable {α : Type} {β : Type}

/-- The JavaScript stable Array sort with the descending numeric comparator
on a rational key, as used by the tools of index.ts. -/
def sortByDesc (key : α → ℚ) (l : List α) : List α :=
  l.insertionSort (fun a b => key b ≤ key a)

/-- The JavaScript stable Array sort with the ascending numeric comparator
on a rational key. -/
def sortByAsc (key : α → ℚ) (l : List α) : List α :=
  l.insertionSort (fun a b => key a ≤ key b)

/-- A list tagged with positions, used to state stability of sorting. -/
def withIdx : ℕ → List α → List (ℕ × α)
  | _, [] => []
  | n, x :: xs => (n, x) :: withIdx (n + 1) xs

end StableSort


/-! Data model, from the interfaces of lighthouse.ts.  Only the fields the
analytic code reads are carried; numeric fields are exact rationals. -/

structure Account where
  id : String
  name : String
  type : String
deriving DecidableEq, Repr

structure LighthouseAsset where
  id : String
  symbol : String
  name : String
  type : String
  amount : ℚ
  price : ℚ
  usdValue : ℚ
deriving DecidableEq, Repr

structure Position where
  id : String
  type : String
  usdValue : ℚ
  assets : List LighthouseAsset
  accountId : String
  networkId : String
  platformId : String
deriving DecidableEq, Repr

/-- The snapshot returned by the latest endpoint; accounts is an insertion
ordered object keyed by account id. -/
structure PortfolioLatestResponse where
  id : String
  status : String
  usdValue : ℚ
  accounts : List (String × Account)
  positions : List Position
deriving DecidableEq, Repr

/-! The asset type breakdown of getLighthousePortfolio (index.ts).  The
JavaScript Map is modelled as an insertion ordered association list. -/

/-- JavaScript Map.get on an insertion ordered association list. -/
def mapGet (m : List (String × ℚ)) (k : String) : Option ℚ :=
  (m.find? (fun e => e.1 == k)).map (fun e => e.2)

/-- JavaScript Map.set: an existing key keeps its position, a new key is
appended at the end. -/
def mapSet (m : List (String × ℚ)) (k : String) (v : ℚ) : List (String × ℚ) :=
  match m with
  | [] => [(k, v)]
  | e :: rest => if e.1 = k then (k, v) :: rest else e :: mapSet rest k v

/-- One step of the accumulation: assetTypeMap.set(asset.type,
(assetTypeMap.get(asset.type) or 0) + asset.usdValue). -/
def accumStep (m : List (String × ℚ)) (asset : LighthouseAsset) : List (String × ℚ) :=
  mapSet m asset.type ((mapGet m asset.type).getD 0 + asset.usdValue)

/-- The Map built by getLighthousePortfolio: for each asset of each position,
accumulate usdValue under the asset type. -/
def assetTypeMap (positions : List Position) : List (String × ℚ) :=
  positions.foldl (fun m position => position.assets.foldl accumStep m) []

structure BreakdownEntry where
  type : String
  value : ℚ
  percentage : ENum
deriving DecidableEq, Repr

/-- One entry of the breakdown: a map entry as a record with
percentage = value / totalUsdValue * 100. -/
def mkBreakdownEntry (totalUsdValue : ℚ) (e : String × ℚ) : BreakdownEntry :=
  { type := e.1, value := e.2, percentage := eMul100 (jsDiv e.2 totalUsdValue) }

/-- The assetTypeBreakdown of getLighthousePortfolio: the entries of the map
as records with percentage = value / totalUsdValue * 100, sorted descending
by value. -/
def assetTypeBreakdown (data : PortfolioLatestResponse) : List BreakdownEntry :=
  sortByDesc (fun e => e.value)
    ((assetTypeMap data.positions).map (mkBreakdownEntry data.usdValue))

structure MajorAsset where
  name : String
  symbol : String
  value : ℚ
  amount : ℚ
deriving DecidableEq, Repr

/-- The projection applied to a kept asset by getLighthousePortfolio. -/
def projectAsset (asset : LighthouseAsset) : MajorAsset :=
  { name := asset.name, symbol := asset.symbol
    value := asset.usdValue, amount := asset.amount }

/-- The majorAssets of getLighthousePortfolio: per position the assets worth
at least 1000 USD projected to name, symbol, value and amount, flattened and
sorted descending by value. -/
def majorAssets (data : PortfolioLatestResponse) : List MajorAsset :=
  sortByDesc (fun a => a.value)
    (data.positions.flatMap
      (fun position =>
        (position.assets.filter (fun asset => decide (1000 ≤ asset.usdValue))).map
          projectAsset))

/-! Observables used to state the claims about the aggregator. -/

/-- All assets of a snapshot in traversal order (positions, then assets). -/
def allAssets (data : PortfolioLatestResponse) : List LighthouseAsset :=
  data.positions.flatMap (fun position => position.assets)

/-- Total usd value of the assets of one type in a list of assets. -/
def typeSum (t : String) : List LighthouseAsset → ℚ
  | [] => 0
  | a :: as => (if a.type = t then a.usdValue else 0) + typeSum t as

/-- Total usd value of the assets of one type in a snapshot. -/
def typeTotal (data : PortfolioLatestResponse) (t : String) : ℚ :=
  typeSum t (allAssets data)

/-- Position of the first occurrence of an element in a list. -/
def firstIdxOf (t : String) : List String → ℕ
  | [] => 0
  | s :: ss => if s = t then 0 else firstIdxOf t ss + 1

/-- Position of the first asset of a given type in the traversal order of a
snapshot: the rank used by the first-encountered tie break. -/
def firstTypeIdx (data : PortfolioLatestResponse) (t : String) : ℕ :=
  firstIdxOf t ((allAssets data).map (fun a => a.type))

/-- Appending a key to an insertion ordered key list when it is new: the
shape of the key sequence of a JavaScript Map. -/
def insertKey (ks : List String) (t : String) : List String :=
  if t ∈ ks then ks else ks ++ [t]

/-- The keys of a JavaScript Map built by repeated set calls: each distinct
value once, in order of first occurrence. -/
def keyOrder (ts : List String) : List String := ts.foldl insertKey []

/-- The IEEE special value JavaScript produces for x / 0 as a function of
the sign of x. -/
def signSentinel (v : ℚ) : ENum :=
  if 0 < v then .posInf else if v < 0 then .negInf else .nan

/-! The yield tool getLighthouseYieldData (index.ts), over the yield data
model of lighthouse.ts.  BorrowElement has the shape of SupplyElement and
PayElement has the shape of ReceiveElement, so the two element types are
shared. -/

structure YieldAsset where
  id : String
  symbol : String
  name : String
  type : String
  price : ℚ
deriving DecidableEq, Repr

structure SupplyElement where
  asset : YieldAsset
  amount : ℚ
deriving DecidableEq, Repr

structure ReceiveElement where
  asset : YieldAsset
  apy : ℚ
deriving DecidableEq, Repr

structure Pool where
  platform : String
  network : String
  name : String
  supply : List SupplyElement
  receive : List ReceiveElement
  borrow : List SupplyElement
  pay : List ReceiveElement
deriving DecidableEq, Repr

structure YieldResponse where
  pools : List Pool
deriving DecidableEq, Repr

/-- One element of the receiveUSD array built by the yield tool. -/
structure ReceiveUSDEntry where
  asset : String
  assetUSD : ℚ
  apy : ℚ
  receiveUSD : ℚ
deriving DecidableEq, Repr

/-- One element of the payUSD array built by the yield tool. -/
structure PayUSDEntry where
  asset : String
  assetUSD : ℚ
  apy : ℚ
  payUSD : ℚ
deriving DecidableEq, Repr

def mkReceiveEntry (supply : SupplyElement) (receive : ReceiveElement) : ReceiveUSDEntry :=
  { asset := supply.asset.symbol
    assetUSD := supply.amount * supply.asset.price
    apy := receive.apy
    receiveUSD := receive.apy / 100 * supply.amount * supply.asset.price }

def mkPayEntry (borrow : SupplyElement) (pay : ReceiveElement) : PayUSDEntry :=
  { asset := borrow.asset.symbol
    assetUSD := borrow.amount * borrow.asset.price
    apy := pay.apy
    payUSD := pay.apy / 100 * borrow.amount * borrow.asset.price }

/-- pool.supply.map((supply, index) => ...) reading pool.receive[index]: the
supply legs are walked in order, each paired with the receive leg at the same
index.  When the index is past the end of receive, the JavaScript access
undefined.apy throws a TypeError, modelled as none.  Receive legs beyond the
supply length are never visited. -/
def receiveUSDLegs : List SupplyElement → List ReceiveElement → Option (List ReceiveUSDEntry)
  | [], _ => some []
  | _ :: _, [] => none
  | supply :: ss, receive :: rs =>
    (receiveUSDLegs ss rs).map (fun rest => mkReceiveEntry supply receive :: rest)

/-- pool.borrow.map((borrow, index) => ...) reading pool.pay[index]. -/
def payUSDLegs : List SupplyElement → List ReceiveElement → Option (List PayUSDEntry)
  | [], _ => some []
  | _ :: _, [] => none
  | borrow :: bs, pay :: ps =>
    (payUSDLegs bs ps).map (fun rest => mkPayEntry borrow pay :: rest)

/-- One pool of formattedYieldDataWithUsdValues: the receive and pay USD legs
of the pool plus netYieldUSD, the sum of the receiveUSD fields minus the sum
of the payUSD fields.  none models the thrown TypeError. -/
structure ComputedPool where
  name : String
  receiveUSD : List ReceiveUSDEntry
  payUSD : List PayUSDEntry
  netYieldUSD : ℚ
deriving DecidableEq, Repr

def computePool (pool : Pool) : Option ComputedPool := do
  let rUSD ← receiveUSDLegs pool.supply pool.receive
  let pUSD ← payUSDLegs pool.borrow pool.pay
  some
    { name := pool.name
      receiveUSD := rUSD
      payUSD := pUSD
      netYieldUSD :=
        rUSD.foldl (fun acc receive => acc + receive.receiveUSD) 0 -
          pUSD.foldl (fun acc pay => acc + pay.payUSD) 0 }

/-- The yieldData.pools.map(...) pipeline of the yield tool; none models the
tool aborting on the first pool that throws. -/
def computePools : List Pool → Option (List ComputedPool)
  | [] => some []
  | pool :: pools => do
    let cp ← computePool pool
    let cps ← computePools pools
    some (cp :: cps)

def totalSupplyUSD (pools : List ComputedPool) : ℚ :=
  pools.foldl
    (fun acc pool => acc + pool.receiveUSD.foldl (fun acc receive => acc + receive.assetUSD) 0) 0

def totalBorrowUSD (pools : List ComputedPool) : ℚ :=
  pools.foldl
    (fun acc pool => acc + pool.payUSD.foldl (fun acc pay => acc + pay.assetUSD) 0) 0

def totalYieldUSD (pools : List ComputedPool) : ℚ :=
  pools.foldl (fun acc pool => acc + pool.netYieldUSD) 0

/-- The Avg APY figure printed by the yield tool: the source passes
totalYieldUSD / totalSupplyUSD to formatPercentage with no multiplication
by 100. -/
def avgApyReported (pools : List ComputedPool) : ENum :=
  jsDiv (totalYieldUSD pools) (totalSupplyUSD pools)

/-! Observables used to state the claims about the yield engine, following
the formulas of the spec. -/

/-- Sum of amount * price over the supply legs of a pool. -/
def supplyUSD (pool : Pool) : ℚ :=
  (pool.supply.map (fun supply => supply.amount * supply.asset.price)).sum

/-- Sum of amount * price over the borrow legs of a pool. -/
def borrowUSD (pool : Pool) : ℚ :=
  (pool.borrow.map (fun borrow => borrow.amount * borrow.asset.price)).sum

/-- The per-leg annual USD yield formula of the spec:
apy / 100 * amount * price for a positionally paired leg. -/
def legYieldUSD (p : SupplyElement × ReceiveElement) : ℚ :=
  p.2.apy / 100 * p.1.amount * p.1.asset.price

/-- The net yield formula of the spec: the summed receive leg yields minus
the summed pay leg yields, over the positional pairing. -/
def netYieldFormula (pool : Pool) : ℚ :=
  ((pool.supply.zip pool.receive).map legYieldUSD).sum -
    ((pool.borrow.zip pool.pay).map legYieldUSD).sum

/-! The performance tool getLighthousePerformanceData (index.ts). -/

structure GainerLoserItem where
  id : String
  symbol : String
  type : String
  currAmount : ℚ
  currPrice : ℚ
  currUsdValue : ℚ
  prevAmount : ℚ
  prevPrice : ℚ
  prevUsdValue : ℚ
  diffUsdValue : ℚ
deriving DecidableEq, Repr

structure ChangeByTypeItem where
  type : String
  currUsdValue : ℚ
  prevUsdValue : ℚ
  diffUsdValue : ℚ
deriving DecidableEq, Repr

structure PortfolioPerformanceResponse where
  startsAt : String
  endsAt : String
  usdValueChange : ℚ
  lastSnapshotUsdValue : ℚ
  gainers : List GainerLoserItem
  losers : List GainerLoserItem
  changeByType : List ChangeByTypeItem
deriving DecidableEq, Repr

/-- Top gainers as rendered: performanceData.gainers sorted descending by
diffUsdValue, then sliced to the first five. -/
def topGainers (resp : PortfolioPerformanceResponse) : List GainerLoserItem :=
  (sortByDesc (fun g => g.diffUsdValue) resp.gainers).take 5

/-- Top losers as rendered: performanceData.losers sorted ascending by
diffUsdValue, then sliced to the first five. -/
def topLosers (resp : PortfolioPerformanceResponse) : List GainerLoserItem :=
  (sortByAsc (fun l => l.diffUsdValue) resp.losers).take 5

/-- The percent figure printed for a gainer or loser: the source passes
diffUsdValue / prevUsdValue to formatPercentage with no multiplication
by 100. -/
def reportedGainerPercent (item : GainerLoserItem) : ENum :=
  jsDiv item.diffUsdValue item.prevUsdValue

/-- The performance response after the tool has run: the three
Array.prototype.sort calls mutate the changeByType, gainers and losers
arrays of the response in place; the other fields are only read. -/
def performancePost (resp : PortfolioPerformanceResponse) : PortfolioPerformanceResponse :=
  { resp with
    changeByType := sortByDesc (fun c => c.diffUsdValue) resp.changeByType
    gainers := sortByDesc (fun g => g.diffUsdValue) resp.gainers
    losers := sortByAsc (fun l => l.diffUsdValue) resp.losers }

/-- The snapshot after getLighthousePortfolio has run: the tool only reads
the snapshot, building a fresh Map and fresh arrays (forEach, Array.from,
map, filter, the sorts act on the fresh arrays), so the snapshot is
unchanged. -/
def portfolioPost (data : PortfolioLatestResponse) : PortfolioLatestResponse := data

/-- The yield response after getLighthouseYieldData has run: every pool
record is rebuilt with spreads and map, the response itself is only read. -/
def yieldPost (resp : YieldResponse) : YieldResponse := resp

/-! The portfolio locator findPortfolio of lighthouse.ts. -/

structure PortfolioItem where
  id : String
  name : String
  role : String
  slug : String
deriving DecidableEq, Repr

/-- JavaScript String.prototype.toLowerCase on the names involved. -/
def toLowerStr (s : String) : String := String.mk (s.data.map Char.toLower)

def startsWithChars : List Char → List Char → Bool
  | _, [] => true
  | [], _ :: _ => false
  | c :: cs, p :: ps => c == p && startsWithChars cs ps

/-- JavaScript String.prototype.includes: pat occurs contiguously in s. -/
def includesChars (s pat : List Char) : Bool :=
  match s with
  | [] => startsWithChars [] pat
  | _ :: rest => startsWithChars s pat || includesChars rest pat

def strIncludes (s pat : String) : Bool := includesChars s.data pat.data

/-- findPortfolio: the first entry when no name is given, else the first
case-insensitive exact name match, else the first case-insensitive substring
match, else the not-found error listing every portfolio name.  The empty
portfolio list is its own error, thrown first. -/
def findPortfolio (portfolios : List PortfolioItem) (portfolioName : Option String) :
    Except String (String × String) :=
  match portfolios with
  | [] => .error "The user has no portfolios. Please create one."
  | first :: _ =>
    match portfolioName with
    | none => .ok (first.slug, first.name)
    | some q =>
      match portfolios.find? (fun p => toLowerStr p.name == toLowerStr q) with
      | some exactMatch => .ok (exactMatch.slug, exactMatch.name)
      | none =>
        match portfolios.find? (fun p => strIncludes (toLowerStr p.name) (toLowerStr q)) with
        | some partialMatch => .ok (partialMatch.slug, partialMatch.name)
        | none =>
          .error ("Portfolio \"" ++ q ++ "\" not found. Available portfolios: " ++
            String.intercalate ", " (portfolios.map (fun p => p.name)))

/-! The authentication guards of the data methods of the Lighthouse class
(lighthouse.ts).  Each method is modelled up to its first fetch: the result
is either the thrown error or the url the method requests. -/

def notAuthenticatedMsg : String := "Not authenticated. Please authenticate first."

/-- getUserData: the null-cookie guard throws before the fetch. -/
def getUserDataRequest (sessionCookie : Option String) : Except String String :=
  match sessionCookie with
  | none => .error notAuthenticatedMsg
  | some _ => .ok "https://lighthouse.one/v1/user"

/-- getPortfolioData: the null-cookie guard throws before the fetch. -/
def getPortfolioDataRequest (sessionCookie : Option String) (portfolioSlug : String) :
    Except String String :=
  match sessionCookie with
  | none => .error notAuthenticatedMsg
  | some _ =>
    .ok ("https://lighthouse.one/v1/workspaces/" ++ portfolioSlug ++ "/snapshots/latest")

/-- getYieldData: the null-cookie guard throws before the fetch. -/
def getYieldDataRequest (sessionCookie : Option String) (portfolioSlug : String) :
    Except String String :=
  match sessionCookie with
  | none => .error notAuthenticatedMsg
  | some _ => .ok ("https://lighthouse.one/v1/workspaces/" ++ portfolioSlug ++ "/yields")

/-- getPerformanceData has no null-cookie guard: the request is issued
unconditionally. -/
def getPerformanceDataRequest (_sessionCookie : Option String)
    (portfolioSlug startDate : String) : Except String String :=
  .ok ("https://lighthouse.one/v1/workspaces/" ++ portfolioSlug ++
    "/performance?startsAt=" ++ startDate)

/-! Concrete fixtures used by the scenario parts of the claims and by the
witnesses and counterexamples. -/

def stableAsset : LighthouseAsset :=
  { id := "a1", symbol := "USDC", name := "USD Coin", type := "STABLECOIN"
    amount := 6000, price := 1, usdValue := 6000 }

def nativeAsset : LighthouseAsset :=
  { id := "a2", symbol := "ETH", name := "Ether", type := "NATIVE"
    amount := 2, price := 2000, usdValue := 4000 }

def exPosition1 : Position :=
  { id := "p1", type := "WALLET", usdValue := 10000
    assets := [stableAsset, nativeAsset]
    accountId := "acc1", networkId := "net1", platformId := "plat1" }

/-- The scenario snapshot of the spec: usdValue 10000, one position with a
6000 USD stablecoin asset and a 4000 USD native asset. -/
def exSnapshot1 : PortfolioLatestResponse :=
  { id := "s1", status := "FINISHED", usdValue := 10000
    accounts := [("acc1", { id := "acc1", name := "Main Wallet", type := "WALLET" })]
    positions := [exPosition1] }

/-- The same snapshot with a zero total, the divide-by-zero edge case. -/
def exSnapshot0 : PortfolioLatestResponse :=
  { id := "s0", status := "FINISHED", usdValue := 0
    accounts := [("acc1", { id := "acc1", name := "Main Wallet", type := "WALLET" })]
    positions := [exPosition1] }

def usdcYieldAsset : YieldAsset :=
  { id := "y1", symbol := "USDC", name := "USD Coin", type := "STABLECOIN", price := 1 }

/-- The scenario pool of the spec: one supply leg of amount 100 at price 1
receiving 5 percent, no borrow legs. -/
def exPool5 : Pool :=
  { platform := "Aave", network := "Ethereum", name := "aave-pool"
    supply := [{ asset := usdcYieldAsset, amount := 100 }]
    receive := [{ asset := usdcYieldAsset, apy := 5 }]
    borrow := [], pay := [] }

/-- A pool with an extra receive leg and no supply leg at all: the paired
array lengths disagree. -/
def exPool7 : Pool :=
  { platform := "Aave", network := "Ethereum", name := "aave-pool-extra"
    supply := []
    receive := [{ asset := usdcYieldAsset, apy := 5 }]
    borrow := [], pay := [] }

/-- A yield response holding just the scenario pool. -/
def exYieldResponse : YieldResponse := { pools := [exPool5] }

/-- A gainer that went from 100 USD to 150 USD: diffUsdValue 50 over
prevUsdValue 100. -/
def exGainer : GainerLoserItem :=
  { id := "g1", symbol := "ETH", type := "NATIVE"
    currAmount := 1, currPrice := 150, currUsdValue := 150
    prevAmount := 1, prevPrice := 100, prevUsdValue := 100
    diffUsdValue := 50 }

def exGainerSmall : GainerLoserItem :=
  { id := "g2", symbol := "OP", type := "NATIVE"
    currAmount := 1, currPrice := 30, currUsdValue := 30
    prevAmount := 1, prevPrice := 29, prevUsdValue := 29
    diffUsdValue := 1 }

/-- A performance response whose gainers arrive in ascending order, so the
in-place descending sort reorders them. -/
def exPerfResponse : PortfolioPerformanceResponse :=
  { startsAt := "2025-01-01", endsAt := "2025-01-31"
    usdValueChange := 51, lastSnapshotUsdValue := 1100
    gainers := [exGainerSmall, exGainer]
    losers := []
    changeByType := [] }

def exPortfolios : List PortfolioItem :=
  [{ id := "1", name := "Main", role := "OWNER", slug := "main-slug" },
   { id := "2", name := "Trading", role := "OWNER", slug := "trading-slug" }]

section StableSortLemmas

variable {α : Type} {β : Type}

theorem sortByDesc_perm (key : α → ℚ) (l : List α) : List.Perm (sortByDesc key l) l :=
  List.perm_insertionSort _ l

theorem sortByAsc_perm (key : α → ℚ) (l : List α) : List.Perm (sortByAsc key l) l :=
  List.perm_insertionSort _ l

theorem sortByDesc_sorted (key : α → ℚ) (l : List α) :
    (sortByDesc key l).Pairwise (fun a b => key b ≤ key a) := by
  haveI : IsTotal α (fun a b => key b ≤ key a) := ⟨fun a b => le_total (key b) (key a)⟩
  haveI : IsTrans α (fun a b => key b ≤ key a) :=
    ⟨fun _ _ _ hab hbc => le_trans hbc hab⟩
  exact List.sorted_insertionSort _ l

theorem sortByAsc_sorted (key : α → ℚ) (l : List α) :
    (sortByAsc key l).Pairwise (fun a b => key a ≤ key b) := by
  haveI : IsTotal α (fun a b => key a ≤ key b) := ⟨fun a b => le_total (key a) (key b)⟩
  haveI : IsTrans α (fun a b => key a ≤ key b) :=
    ⟨fun _ _ _ hab hbc => le_trans hab hbc⟩
  exact List.sorted_insertionSort _ l

theorem orderedInsert_tie_desc (key : α → ℚ) (R : α → α → Prop) (x : α) :
    ∀ l : List α, l.Pairwise (fun a b => key a = key b → R a b) →
      (∀ y ∈ l, key x = key y → R x y) →
      (List.orderedInsert (fun a b => key b ≤ key a) x l).Pairwise
        (fun a b => key a = key b → R a b)
  | [], _, _ => List.pairwise_singleton _ x
  | y :: ys, hl, hx => by
    by_cases h : key y ≤ key x
    · rw [List.orderedInsert, if_pos h]
      exact List.Pairwise.cons hx hl
    · rw [List.orderedInsert, if_neg h]
      rcases List.pairwise_cons.mp hl with ⟨hy, hys⟩
      refine List.Pairwise.cons ?_ (orderedInsert_tie_desc key R x ys hys ?_)
      · intro z hz
        rcases (List.mem_orderedInsert _).mp hz with hzx | hzys
        · subst hzx
          intro hke
          exact absurd (le_of_eq hke) h
        · exact hy z hzys
      · exact fun y₂ hy₂ => hx y₂ (List.mem_cons_of_mem _ hy₂)

theorem orderedInsert_tie_asc (key : α → ℚ) (R : α → α → Prop) (x : α) :
    ∀ l : List α, l.Pairwise (fun a b => key a = key b → R a b) →
      (∀ y ∈ l, key x = key y → R x y) →
      (List.orderedInsert (fun a b => key a ≤ key b) x l).Pairwise
        (fun a b => key a = key b → R a b)
  | [], _, _ => List.pairwise_singleton _ x
  | y :: ys, hl, hx => by
    by_cases h : key x ≤ key y
    · rw [List.orderedInsert, if_pos h]
      exact List.Pairwise.cons hx hl
    · rw [List.orderedInsert, if_neg h]
      rcases List.pairwise_cons.mp hl with ⟨hy, hys⟩
      refine List.Pairwise.cons ?_ (orderedInsert_tie_asc key R x ys hys ?_)
      · intro z hz
        rcases (List.mem_orderedInsert _).mp hz with hzx | hzys
        · subst hzx
          intro hke
          exact absurd (ge_of_eq hke) h
        · exact hy z hzys
      · exact fun y₂ hy₂ => hx y₂ (List.mem_cons_of_mem _ hy₂)

/-- Stability of the descending sort: any relation holding pairwise on the
input still holds pairwise on the output between elements with equal keys. -/
theorem sortByDesc_tie (key : α → ℚ) (R : α → α → Prop) :
    ∀ l : List α, l.Pairwise R →
      (sortByDesc key l).Pairwise (fun a b => key a = key b → R a b)
  | [], _ => List.Pairwise.nil
  | x :: xs, hl => by
    rcases List.pairwise_cons.mp hl with ⟨hx, hxs⟩
    refine orderedInsert_tie_desc key R x _ (sortByDesc_tie key R xs hxs) ?_
    intro y hy _
    exact hx y ((List.mem_insertionSort _).mp hy)

/-- Stability of the ascending sort. -/
theorem sortByAsc_tie (key : α → ℚ) (R : α → α → Prop) :
    ∀ l : List α, l.Pairwise R →
      (sortByAsc key l).Pairwise (fun a b => key a = key b → R a b)
  | [], _ => List.Pairwise.nil
  | x :: xs, hl => by
    rcases List.pairwise_cons.mp hl with ⟨hx, hxs⟩
    refine orderedInsert_tie_asc key R x _ (sortByAsc_tie key R xs hxs) ?_
    intro y hy _
    exact hx y ((List.mem_insertionSort _).mp hy)

/-- Sorting commutes with a projection that preserves the key. -/
theorem sortByDesc_map (key : β → ℚ) (f : α → β) (l : List α) :
    (sortByDesc (fun a => key (f a)) l).map f = sortByDesc key (l.map f) :=
  List.map_insertionSort _ _ f l (fun _ _ _ _ => Iff.rfl)

theorem withIdx_map_snd : ∀ (n : ℕ) (l : List α), (withIdx n l).map Prod.snd = l
  | _, [] => rfl
  | n, x :: xs => by
    rw [withIdx, List.map_cons, withIdx_map_snd (n + 1) xs]

theorem withIdx_fst_lt : ∀ (n : ℕ) (l : List α), ∀ p ∈ withIdx n l, n ≤ p.1
  | _, [], _, hp => absurd hp (List.not_mem_nil _)
  | n, x :: xs, p, hp => by
    rcases List.mem_cons.mp hp with h | h
    · subst h; exact le_refl n
    · exact le_trans (Nat.le_succ n) (withIdx_fst_lt (n + 1) xs p h)

theorem withIdx_pairwise (n : ℕ) (l : List α) :
    (withIdx n l).Pairwise (fun p q => p.1 < q.1) := by
  induction l generalizing n with
  | nil => exact List.Pairwise.nil
  | cons x xs ih =>
    refine List.Pairwise.cons ?_ (ih (n + 1))
    intro q hq
    exact lt_of_lt_of_le (Nat.lt_succ_self n) (withIdx_fst_lt (n + 1) xs q hq)

end StableSortLemmas

/-! Lemmas about sums written as JavaScript reduce calls. -/

theorem foldl_add_eq {α : Type} (f : α → ℚ) :
    ∀ (l : List α) (a : ℚ), l.foldl (fun acc x => acc + f x) a = a + (l.map f).sum
  | [], a => by simp
  | x :: xs, a => by
    rw [List.foldl_cons, foldl_add_eq f xs (a + f x), List.map_cons, List.sum_cons, add_assoc]

/-! Lemmas about the insertion ordered map model of the JavaScript Map. -/

theorem mapGet_cons (e : String × ℚ) (m : List (String × ℚ)) (k : String) :
    mapGet (e :: m) k = if e.1 = k then some e.2 else mapGet m k := by
  by_cases h : e.1 = k
  · simp [mapGet, List.find?_cons, h]
  · simp [mapGet, List.find?_cons, h]

theorem mapGet_mapSet : ∀ (m : List (String × ℚ)) (k : String) (v : ℚ) (k2 : String),
    mapGet (mapSet m k v) k2 = if k2 = k then some v else mapGet m k2
  | [], k, v, k2 => by
    rw [mapSet, mapGet_cons]
    by_cases h : k2 = k
    · rw [if_pos (show (k, v).1 = k2 from h.symm), if_pos h]
    · rw [if_neg (show ¬ (k, v).1 = k2 from fun hh => h hh.symm), if_neg h]
  | e :: rest, k, v, k2 => by
    by_cases he : e.1 = k
    · rw [mapSet, if_pos he, mapGet_cons, mapGet_cons]
      by_cases h2 : k2 = k
      · rw [if_pos (show k = k2 from h2.symm), if_pos h2]
      · have he2 : ¬ e.1 = k2 := fun hh => h2 (he.symm.trans hh).symm
        rw [if_neg (show ¬ k = k2 from fun hh => h2 hh.symm), if_neg h2, if_neg he2]
    · rw [mapSet, if_neg he, mapGet_cons, mapGet_cons, mapGet_mapSet rest k v k2]
      by_cases h2 : e.1 = k2
      · have hk2 : ¬ k2 = k := fun hh => he (h2.trans hh)
        rw [if_pos h2, if_neg hk2, if_pos h2]
      · rw [if_neg h2, if_neg h2]

theorem keys_mapSet : ∀ (m : List (String × ℚ)) (k : String) (v : ℚ),
    (mapSet m k v).map Prod.fst =
      if k ∈ m.map Prod.fst then m.map Prod.fst else m.map Prod.fst ++ [k]
  | [], k, v => by simp [mapSet]
  | e :: rest, k, v => by
    by_cases he : e.1 = k
    · rw [mapSet, if_pos he]
      have : k ∈ (e :: rest).map Prod.fst := by
        rw [List.map_cons, he]
        exact List.mem_cons_self k _
      rw [if_pos this, List.map_cons, List.map_cons, he]
    · rw [mapSet, if_neg he, List.map_cons, List.map_cons, keys_mapSet rest k v]
      by_cases hk : k ∈ rest.map Prod.fst
      · have : k ∈ e.1 :: rest.map Prod.fst := List.mem_cons_of_mem _ hk
        rw [if_pos hk, if_pos this]
      · have : ¬ k ∈ e.1 :: rest.map Prod.fst := by
          intro hmem
          rcases List.mem_cons.mp hmem with h1 | h1
          · exact he h1.symm
          · exact hk h1
        rw [if_neg hk, if_neg this, List.cons_append]
  termination_by m => m.length

theorem mem_keys_mapSet (m : List (String × ℚ)) (k : String) (v : ℚ) (t : String) :
    t ∈ (mapSet m k v).map Prod.fst ↔ t ∈ m.map Prod.fst ∨ t = k := by
  rw [keys_mapSet]
  by_cases h : k ∈ m.map Prod.fst
  · rw [if_pos h]
    exact ⟨Or.inl, fun x => x.elim id (fun ht => ht ▸ h)⟩
  · rw [if_neg h]
    simp [List.mem_append]

theorem mapGet_eq_none_iff : ∀ (m : List (String × ℚ)) (k : String),
    mapGet m k = none ↔ k ∉ m.map Prod.fst
  | [], k => by simp [mapGet]
  | e :: m, k => by
    rw [mapGet_cons, List.map_cons]
    by_cases h : e.1 = k
    · rw [if_pos h]
      exact iff_of_false (Option.some_ne_none e.2)
        (fun hnm => hnm (List.mem_cons.mpr (Or.inl h.symm)))
    · rw [if_neg h, mapGet_eq_none_iff m k]
      constructor
      · intro hh hmem
        rcases List.mem_cons.mp hmem with h1 | h1
        · exact h h1.symm
        · exact hh h1
      · intro hh h1
        exact hh (List.mem_cons_of_mem _ h1)

theorem mem_assoc_iff_mapGet : ∀ {m : List (String × ℚ)},
    (m.map Prod.fst).Nodup → ∀ (k : String) (v : ℚ), ((k, v) ∈ m ↔ mapGet m k = some v)
  | [], _, k, v => by simp [mapGet]
  | e :: m, hnd, k, v => by
    rw [List.map_cons, List.nodup_cons] at hnd
    rw [mapGet_cons, List.mem_cons]
    by_cases h : e.1 = k
    · rw [if_pos h]
      constructor
      · intro hmem
        rcases hmem with h1 | h1
        · rw [← h1]
        · exact absurd (h ▸ List.mem_map_of_mem Prod.fst h1) hnd.1
      · intro hv
        left
        have : e.2 = v := Option.some_inj.mp hv
        rw [← h, ← this]
    · rw [if_neg h]
      rw [mem_assoc_iff_mapGet hnd.2 k v]
      constructor
      · intro hmem
        rcases hmem with h1 | h1
        · exact absurd (congrArg Prod.fst h1.symm) h
        · exact h1
      · exact Or.inr

/-! Lemmas about the asset type accumulation. -/

theorem foldl_accumStep_flat : ∀ (ps : List Position) (m : List (String × ℚ)),
    ps.foldl (fun m position => position.assets.foldl accumStep m) m =
      (ps.flatMap (fun position => position.assets)).foldl accumStep m
  | [], m => rfl
  | p :: ps, m => by
    rw [List.foldl_cons, foldl_accumStep_flat ps _, List.flatMap_cons, List.foldl_append]

theorem accum_get : ∀ (as : List LighthouseAsset) (m : List (String × ℚ)) (t : String),
    mapGet (as.foldl accumStep m) t =
      if t ∈ m.map Prod.fst ∨ t ∈ as.map (fun a => a.type) then
        some ((mapGet m t).getD 0 + typeSum t as)
      else none
  | [], m, t => by
    by_cases h : t ∈ m.map Prod.fst
    · have hne : mapGet m t ≠ none := fun hh => ((mapGet_eq_none_iff m t).mp hh) h
      rcases Option.ne_none_iff_exists.mp hne with ⟨v, hv⟩
      simp [← hv, typeSum, h]
    · have : mapGet m t = none := (mapGet_eq_none_iff m t).mpr h
      simp [this, typeSum, h]
  | a :: as, m, t => by
    rw [List.foldl_cons, accum_get as (accumStep m a) t]
    have hget : mapGet (accumStep m a) t =
        if t = a.type then some ((mapGet m a.type).getD 0 + a.usdValue) else mapGet m t :=
      mapGet_mapSet m a.type _ t
    have hmem : t ∈ (accumStep m a).map Prod.fst ↔ t ∈ m.map Prod.fst ∨ t = a.type :=
      mem_keys_mapSet m a.type _ t
    by_cases hta : t = a.type
    · have hc1 : t ∈ (accumStep m a).map Prod.fst ∨ t ∈ as.map (fun a2 => a2.type) :=
        Or.inl (hmem.mpr (Or.inr hta))
      have hc2 : t ∈ m.map Prod.fst ∨ t ∈ (a :: as).map (fun a2 => a2.type) :=
        Or.inr (by rw [List.map_cons, hta]; exact List.mem_cons_self _ _)
      rw [if_pos hc1, if_pos hc2, hget, if_pos hta]
      have hts : typeSum t (a :: as) = a.usdValue + typeSum t as := by
        rw [typeSum, if_pos hta.symm]
      rw [hts, hta, Option.getD_some, add_assoc]
    · have hts : typeSum t (a :: as) = typeSum t as := by
        rw [typeSum, if_neg (fun hh => hta hh.symm), zero_add]
      have hcond : (t ∈ (accumStep m a).map Prod.fst ∨ t ∈ as.map (fun a2 => a2.type)) ↔
          (t ∈ m.map Prod.fst ∨ t ∈ (a :: as).map (fun a2 => a2.type)) := by
        rw [hmem, List.map_cons, List.mem_cons]
        constructor
        · intro h
          rcases h with (h1 | h1) | h1
          · exact Or.inl h1
          · exact absurd h1 hta
          · exact Or.inr (Or.inr h1)
        · intro h
          rcases h with h1 | h1 | h1
          · exact Or.inl (Or.inl h1)
          · exact absurd h1 hta
          · exact Or.inr h1
      rw [hget, if_neg hta, hts]
      by_cases hc : t ∈ m.map Prod.fst ∨ t ∈ (a :: as).map (fun a2 => a2.type)
      · rw [if_pos (hcond.mpr hc), if_pos hc]
      · rw [if_neg (fun hh => hc (hcond.mp hh)), if_neg hc]

theorem keys_foldl_accumStep : ∀ (as : List LighthouseAsset) (m : List (String × ℚ)),
    (as.foldl accumStep m).map Prod.fst =
      (as.map (fun a => a.type)).foldl insertKey (m.map Prod.fst)
  | [], m => rfl
  | a :: as, m => by
    rw [List.foldl_cons, keys_foldl_accumStep as _, List.map_cons, List.foldl_cons]
    congr 1
    unfold accumStep insertKey
    rw [keys_mapSet]

/-! Lemmas about first occurrence positions and the key order of the map. -/

theorem firstIdxOf_append_left {t : String} :
    ∀ (l1 l2 : List String), t ∈ l1 → firstIdxOf t (l1 ++ l2) = firstIdxOf t l1
  | [], _, h => absurd h (List.not_mem_nil t)
  | s :: ss, l2, h => by
    by_cases hs : s = t
    · simp [firstIdxOf, hs]
    · have ht : t ∈ ss := by
        rcases List.mem_cons.mp h with h1 | h1
        · exact absurd h1.symm hs
        · exact h1
      simp [firstIdxOf, hs, firstIdxOf_append_left ss l2 ht]

theorem firstIdxOf_append_right {t : String} :
    ∀ (l1 l2 : List String), t ∉ l1 → firstIdxOf t (l1 ++ l2) = l1.length + firstIdxOf t l2
  | [], l2, _ => by simp [firstIdxOf]
  | s :: ss, l2, h => by
    have hs : ¬ s = t := fun hh => h (hh ▸ List.mem_cons_self s ss)
    have hss : t ∉ ss := fun hh => h (List.mem_cons_of_mem s hh)
    simp [firstIdxOf, hs, firstIdxOf_append_right ss l2 hss]
    omega

theorem firstIdxOf_lt_length {t : String} :
    ∀ (l : List String), t ∈ l → firstIdxOf t l < l.length
  | [], h => absurd h (List.not_mem_nil t)
  | s :: ss, h => by
    by_cases hs : s = t
    · simp [firstIdxOf, hs]
    · have ht : t ∈ ss := by
        rcases List.mem_cons.mp h with h1 | h1
        · exact absurd h1.symm hs
        · exact h1
      simp [firstIdxOf, hs]
      exact firstIdxOf_lt_length ss ht

theorem firstIdxOf_singleton (t : String) : firstIdxOf t [t] = 0 := by
  simp [firstIdxOf]

theorem keyOrder_append_singleton (ts : List String) (t : String) :
    keyOrder (ts ++ [t]) = insertKey (keyOrder ts) t := by
  unfold keyOrder
  rw [List.foldl_append]
  rfl

theorem keyOrder_spec : ∀ ts : List String,
    (keyOrder ts).Nodup ∧ (∀ t, t ∈ keyOrder ts ↔ t ∈ ts) ∧
    (keyOrder ts).Pairwise (fun a b => firstIdxOf a ts < firstIdxOf b ts) := by
  intro ts
  induction ts using List.reverseRecOn with
  | nil => exact ⟨List.nodup_nil, fun t => by simp [keyOrder], List.Pairwise.nil⟩
  | append_singleton ts t ih =>
    rcases ih with ⟨ihN, ihM, ihP⟩
    rw [keyOrder_append_singleton]
    by_cases hmem : t ∈ keyOrder ts
    · rw [insertKey, if_pos hmem]
      refine ⟨ihN, ?_, ?_⟩
      · intro u
        rw [ihM u, List.mem_append, List.mem_singleton]
        constructor
        · exact Or.inl
        · intro h
          rcases h with h | h
          · exact h
          · subst h
            exact (ihM u).mp hmem
      · refine ihP.imp_of_mem ?_
        intro a b ha hb hlt
        have ha2 : a ∈ ts := (ihM a).mp ha
        have hb2 : b ∈ ts := (ihM b).mp hb
        rw [firstIdxOf_append_left ts [t] ha2, firstIdxOf_append_left ts [t] hb2]
        exact hlt
    · have hts : t ∉ ts := fun hh => hmem ((ihM t).mpr hh)
      rw [insertKey, if_neg hmem]
      refine ⟨?_, ?_, ?_⟩
      · rw [List.nodup_append]
        refine ⟨ihN, List.nodup_singleton t, ?_⟩
        intro a ha hb
        rw [List.mem_singleton] at hb
        exact hmem (hb ▸ ha)
      · intro u
        simp only [List.mem_append, List.mem_singleton, ihM u]
      · rw [List.pairwise_append]
        refine ⟨?_, List.pairwise_singleton _ t, ?_⟩
        · refine ihP.imp_of_mem ?_
          intro a b ha hb hlt
          have ha2 : a ∈ ts := (ihM a).mp ha
          have hb2 : b ∈ ts := (ihM b).mp hb
          rw [firstIdxOf_append_left ts [t] ha2, firstIdxOf_append_left ts [t] hb2]
          exact hlt
        · intro a ha b hb
          rw [List.mem_singleton] at hb
          subst hb
          have ha2 : a ∈ ts := (ihM a).mp ha
          rw [firstIdxOf_append_left ts [b] ha2,
            firstIdxOf_append_right ts [b] hts, firstIdxOf_singleton, Nat.add_zero]
          exact firstIdxOf_lt_length ts ha2

/-! Lemmas about the asset type breakdown. -/

theorem assetTypeMap_get (data : PortfolioLatestResponse) (t : String) :
    mapGet (assetTypeMap data.positions) t =
      if t ∈ (allAssets data).map (fun a => a.type) then some (typeTotal data t) else none := by
  unfold assetTypeMap
  rw [foldl_accumStep_flat, accum_get]
  simp only [List.map_nil, List.not_mem_nil, false_or]
  rw [show mapGet [] t = none from rfl, Option.getD_none, zero_add]
  rfl

theorem assetTypeMap_keys (data : PortfolioLatestResponse) :
    (assetTypeMap data.positions).map Prod.fst =
      keyOrder ((allAssets data).map (fun a => a.type)) := by
  unfold assetTypeMap keyOrder allAssets
  rw [foldl_accumStep_flat, keys_foldl_accumStep]
  rfl

theorem breakdown_entry_spec (data : PortfolioLatestResponse) :
    ∀ e ∈ assetTypeBreakdown data,
      e.value = typeTotal data e.type ∧
      e.percentage = eMul100 (jsDiv e.value data.usdValue) := by
  intro e he
  unfold assetTypeBreakdown at he
  have he2 := (sortByDesc_perm (fun e2 : BreakdownEntry => e2.value)
    ((assetTypeMap data.positions).map (mkBreakdownEntry data.usdValue))).mem_iff.mp he
  rcases List.mem_map.mp he2 with ⟨en, hen, rfl⟩
  refine ⟨?_, rfl⟩
  show en.2 = typeTotal data en.1
  have hnd : ((assetTypeMap data.positions).map Prod.fst).Nodup := by
    rw [assetTypeMap_keys]
    exact (keyOrder_spec _).1
  have hg : mapGet (assetTypeMap data.positions) en.1 = some en.2 :=
    (mem_assoc_iff_mapGet hnd en.1 en.2).mp hen
  rw [assetTypeMap_get data en.1] at hg
  by_cases hc : en.1 ∈ (allAssets data).map (fun a => a.type)
  · rw [if_pos hc] at hg
    exact (Option.some_inj.mp hg).symm
  · rw [if_neg hc] at hg
    cases hg

theorem breakdown_types_eq (data : PortfolioLatestResponse) :
    ((assetTypeMap data.positions).map (mkBreakdownEntry data.usdValue)).map
        (fun e => e.type) =
      (assetTypeMap data.positions).map Prod.fst := by
  rw [List.map_map]
  rfl

theorem breakdown_types_nodup (data : PortfolioLatestResponse) :
    ((assetTypeBreakdown data).map (fun e => e.type)).Nodup := by
  unfold assetTypeBreakdown
  have hp := (sortByDesc_perm (fun e2 : BreakdownEntry => e2.value)
    ((assetTypeMap data.positions).map (mkBreakdownEntry data.usdValue))).map
    (fun e => e.type)
  rw [hp.nodup_iff, breakdown_types_eq, assetTypeMap_keys]
  exact (keyOrder_spec _).1

theorem breakdown_types_cover (data : PortfolioLatestResponse) (t : String) :
    (∃ e ∈ assetTypeBreakdown data, e.type = t) ↔ ∃ a ∈ allAssets data, a.type = t := by
  have h1 : (∃ e ∈ assetTypeBreakdown data, e.type = t) ↔
      t ∈ (assetTypeBreakdown data).map (fun e => e.type) := List.mem_map.symm
  have h2 : (∃ a ∈ allAssets data, a.type = t) ↔
      t ∈ (allAssets data).map (fun a => a.type) := List.mem_map.symm
  rw [h1, h2]
  unfold assetTypeBreakdown
  have hp := (sortByDesc_perm (fun e2 : BreakdownEntry => e2.value)
    ((assetTypeMap data.positions).map (mkBreakdownEntry data.usdValue))).map
    (fun e => e.type)
  rw [hp.mem_iff, breakdown_types_eq, assetTypeMap_keys]
  exact (keyOrder_spec _).2.1 t

theorem breakdown_sorted (data : PortfolioLatestResponse) :
    (assetTypeBreakdown data).Pairwise (fun x y => y.value ≤ x.value) :=
  sortByDesc_sorted _ _

theorem breakdown_tie (data : PortfolioLatestResponse) :
    (assetTypeBreakdown data).Pairwise (fun x y => x.value = y.value →
      firstTypeIdx data x.type < firstTypeIdx data y.type) := by
  unfold assetTypeBreakdown
  apply sortByDesc_tie
  rw [List.pairwise_map]
  have hk : ((assetTypeMap data.positions).map Prod.fst).Pairwise
      (fun a b => firstIdxOf a ((allAssets data).map (fun a2 => a2.type)) <
        firstIdxOf b ((allAssets data).map (fun a2 => a2.type))) := by
    rw [assetTypeMap_keys]
    exact (keyOrder_spec _).2.2
  rw [List.pairwise_map] at hk
  exact hk

theorem breakdown_scenario :
    assetTypeBreakdown exSnapshot1 =
      [{ type := "STABLECOIN", value := 6000, percentage := .fin 60 },
       { type := "NATIVE", value := 4000, percentage := .fin 40 }] := by
  simp +decide [assetTypeBreakdown, mkBreakdownEntry, assetTypeMap, accumStep, mapGet, mapSet,
    exSnapshot1, exPosition1, stableAsset, nativeAsset, sortByDesc,
    List.insertionSort, List.orderedInsert, List.find?, jsDiv, eMul100]
  norm_num

/-- The type and value components of the breakdown do not depend on the
snapshot total: the total only enters the percentage field, which the sort
does not inspect. -/
theorem breakdown_tv (data : PortfolioLatestResponse) :
    (assetTypeBreakdown data).map (fun e => (e.type, e.value)) =
      sortByDesc (fun p => p.2) ((assetTypeMap data.positions).map (fun e => (e.1, e.2))) := by
  unfold assetTypeBreakdown
  have h := sortByDesc_map (fun p : String × ℚ => p.2)
    (fun e : BreakdownEntry => (e.type, e.value))
    ((assetTypeMap data.positions).map (mkBreakdownEntry data.usdValue))
  rw [List.map_map] at h
  exact h

/-! Lemmas about the major holdings. -/

theorem majorPre_eq (data : PortfolioLatestResponse) :
    data.positions.flatMap (fun position =>
        (position.assets.filter (fun asset => decide (1000 ≤ asset.usdValue))).map
          projectAsset) =
      ((allAssets data).filter (fun asset => decide (1000 ≤ asset.usdValue))).map
        projectAsset := by
  unfold allAssets
  induction data.positions with
  | nil => rfl
  | cons p ps ih =>
    simp only [List.flatMap_cons, List.filter_append, List.map_append, ih]

/-! Lemmas about the yield engine. -/

theorem receiveUSDLegs_eq_none_iff :
    ∀ (s : List SupplyElement) (r : List ReceiveElement),
      receiveUSDLegs s r = none ↔ r.length < s.length
  | [], r => by simp [receiveUSDLegs]
  | s :: ss, [] => by simp [receiveUSDLegs, Nat.succ_pos]
  | s :: ss, r :: rs => by
    simp [receiveUSDLegs, Option.map_eq_none', receiveUSDLegs_eq_none_iff ss rs,
      Nat.succ_lt_succ_iff]

theorem payUSDLegs_eq_none_iff :
    ∀ (b : List SupplyElement) (p : List ReceiveElement),
      payUSDLegs b p = none ↔ p.length < b.length
  | [], p => by simp [payUSDLegs]
  | b :: bs, [] => by simp [payUSDLegs, Nat.succ_pos]
  | b :: bs, p :: ps => by
    simp [payUSDLegs, Option.map_eq_none', payUSDLegs_eq_none_iff bs ps,
      Nat.succ_lt_succ_iff]

theorem receiveUSDLegs_eq_some :
    ∀ (s : List SupplyElement) (r : List ReceiveElement) (legs : List ReceiveUSDEntry),
      receiveUSDLegs s r = some legs →
        legs = (s.zip r).map (fun p => mkReceiveEntry p.1 p.2)
  | [], r, legs => by
    intro h
    simp [receiveUSDLegs] at h
    simp [← h]
  | s :: ss, [], legs => by
    intro h
    simp [receiveUSDLegs] at h
  | s :: ss, r :: rs, legs => by
    intro h
    simp only [receiveUSDLegs, Option.map_eq_some'] at h
    rcases h with ⟨rest, hrest, hlegs⟩
    rw [← hlegs, receiveUSDLegs_eq_some ss rs rest hrest, List.zip_cons_cons, List.map_cons]

theorem payUSDLegs_eq_some :
    ∀ (b : List SupplyElement) (p : List ReceiveElement) (legs : List PayUSDEntry),
      payUSDLegs b p = some legs →
        legs = (b.zip p).map (fun q => mkPayEntry q.1 q.2)
  | [], p, legs => by
    intro h
    simp [payUSDLegs] at h
    simp [← h]
  | b :: bs, [], legs => by
    intro h
    simp [payUSDLegs] at h
  | b :: bs, p :: ps, legs => by
    intro h
    simp only [payUSDLegs, Option.map_eq_some'] at h
    rcases h with ⟨rest, hrest, hlegs⟩
    rw [← hlegs, payUSDLegs_eq_some bs ps rest hrest, List.zip_cons_cons, List.map_cons]

theorem computePool_eq_none_iff (pool : Pool) :
    computePool pool = none ↔
      pool.receive.length < pool.supply.length ∨ pool.pay.length < pool.borrow.length := by
  cases hR : receiveUSDLegs pool.supply pool.receive with
  | none =>
    simp only [computePool, hR, Option.none_bind]
    exact iff_of_true rfl (Or.inl ((receiveUSDLegs_eq_none_iff _ _).mp hR))
  | some rUSD =>
    have h1 : ¬ pool.receive.length < pool.supply.length := by
      intro hc
      rw [(receiveUSDLegs_eq_none_iff _ _).mpr hc] at hR
      cases hR
    cases hP : payUSDLegs pool.borrow pool.pay with
    | none =>
      simp only [computePool, hR, hP, Option.some_bind, Option.none_bind]
      exact iff_of_true rfl (Or.inr ((payUSDLegs_eq_none_iff _ _).mp hP))
    | some pUSD =>
      have h2 : ¬ pool.pay.length < pool.borrow.length := by
        intro hc
        rw [(payUSDLegs_eq_none_iff _ _).mpr hc] at hP
        cases hP
      simp [computePool, hR, hP, h1, h2]

theorem computePool_eq_some {pool : Pool} {cp : ComputedPool}
    (h : computePool pool = some cp) :
    cp.name = pool.name ∧
    cp.receiveUSD = (pool.supply.zip pool.receive).map (fun p => mkReceiveEntry p.1 p.2) ∧
    cp.payUSD = (pool.borrow.zip pool.pay).map (fun q => mkPayEntry q.1 q.2) ∧
    cp.netYieldUSD =
      (cp.receiveUSD.map (fun e => e.receiveUSD)).sum -
        (cp.payUSD.map (fun e => e.payUSD)).sum := by
  cases hR : receiveUSDLegs pool.supply pool.receive with
  | none => rw [computePool, hR] at h; cases h
  | some rUSD =>
    cases hP : payUSDLegs pool.borrow pool.pay with
    | none => rw [computePool, hR, hP] at h; cases h
    | some pUSD =>
      rw [computePool, hR, hP] at h
      have h2 := Option.some_inj.mp h
      rw [← h2]
      refine ⟨rfl, receiveUSDLegs_eq_some _ _ _ hR, payUSDLegs_eq_some _ _ _ hP, ?_⟩
      show rUSD.foldl (fun acc receive => acc + receive.receiveUSD) 0 -
          pUSD.foldl (fun acc pay => acc + pay.payUSD) 0 = _
      rw [foldl_add_eq, foldl_add_eq, zero_add, zero_add]

/-- A pool whose computation succeeds has receive at least as long as supply
and pay at least as long as borrow. -/
theorem computePool_lengths {pool : Pool} {cp : ComputedPool}
    (h : computePool pool = some cp) :
    pool.supply.length ≤ pool.receive.length ∧ pool.borrow.length ≤ pool.pay.length := by
  have hne : computePool pool ≠ none := by rw [h]; exact Option.some_ne_none cp
  rw [Ne, computePool_eq_none_iff, not_or, Nat.not_lt, Nat.not_lt] at hne
  exact hne

theorem receiveUSDLegs_take :
    ∀ (s : List SupplyElement) (r : List ReceiveElement),
      receiveUSDLegs s (r.take s.length) = receiveUSDLegs s r
  | [], r => by simp [receiveUSDLegs]
  | s :: ss, [] => by simp [receiveUSDLegs]
  | s :: ss, r :: rs => by
    simp [receiveUSDLegs, List.take_succ_cons, receiveUSDLegs_take ss rs]

theorem payUSDLegs_take :
    ∀ (b : List SupplyElement) (p : List ReceiveElement),
      payUSDLegs b (p.take b.length) = payUSDLegs b p
  | [], p => by simp [payUSDLegs]
  | b :: bs, [] => by simp [payUSDLegs]
  | b :: bs, p :: ps => by
    simp [payUSDLegs, List.take_succ_cons, payUSDLegs_take bs ps]

theorem totalSupplyUSD_eq (cps : List ComputedPool) :
    totalSupplyUSD cps =
      (cps.map (fun cp => (cp.receiveUSD.map (fun e => e.assetUSD)).sum)).sum := by
  simp [totalSupplyUSD, foldl_add_eq]

theorem totalBorrowUSD_eq (cps : List ComputedPool) :
    totalBorrowUSD cps =
      (cps.map (fun cp => (cp.payUSD.map (fun e => e.assetUSD)).sum)).sum := by
  simp [totalBorrowUSD, foldl_add_eq]

theorem totalYieldUSD_eq (cps : List ComputedPool) :
    totalYieldUSD cps = (cps.map (fun cp => cp.netYieldUSD)).sum := by
  simp [totalYieldUSD, foldl_add_eq]

/-- Per-pool pieces: the receive legs of a successfully computed pool carry
exactly the supply exposure and the spec yield formula of the pool. -/
theorem computePool_pieces {pool : Pool} {cp : ComputedPool}
    (h : computePool pool = some cp) :
    (cp.receiveUSD.map (fun e => e.assetUSD)).sum = supplyUSD pool ∧
    (cp.payUSD.map (fun e => e.assetUSD)).sum = borrowUSD pool ∧
    cp.netYieldUSD = netYieldFormula pool := by
  rcases computePool_eq_some h with ⟨_, hr, hp, hn⟩
  rcases computePool_lengths h with ⟨hls, hlb⟩
  constructor
  · rw [hr, List.map_map, supplyUSD]
    have : ((pool.supply.zip pool.receive).map
        ((fun e => e.assetUSD) ∘ fun p => mkReceiveEntry p.1 p.2)) =
        ((pool.supply.zip pool.receive).map Prod.fst).map
          (fun supply => supply.amount * supply.asset.price) := by
      rw [List.map_map]
      rfl
    rw [this, List.map_fst_zip _ _ hls]
  constructor
  · rw [hp, List.map_map, borrowUSD]
    have : ((pool.borrow.zip pool.pay).map
        ((fun e => e.assetUSD) ∘ fun q => mkPayEntry q.1 q.2)) =
        ((pool.borrow.zip pool.pay).map Prod.fst).map
          (fun borrow => borrow.amount * borrow.asset.price) := by
      rw [List.map_map]
      rfl
    rw [this, List.map_fst_zip _ _ hlb]
  · rw [hn, hr, hp, List.map_map, List.map_map, netYieldFormula]
    rfl

theorem computePools_cons {pool : Pool} {pools : List Pool} {cps : List ComputedPool}
    (h : computePools (pool :: pools) = some cps) :
    ∃ cp cps2, computePool pool = some cp ∧ computePools pools = some cps2 ∧
      cps = cp :: cps2 := by
  cases hc : computePool pool with
  | none => rw [computePools, hc] at h; cases h
  | some cp =>
    cases hcs : computePools pools with
    | none => rw [computePools, hc, hcs] at h; cases h
    | some cps2 =>
      rw [computePools, hc, hcs] at h
      exact ⟨cp, cps2, rfl, rfl, (Option.some_inj.mp h).symm⟩

theorem computePools_totals :
    ∀ (pools : List Pool) (cps : List ComputedPool), computePools pools = some cps →
      totalSupplyUSD cps = (pools.map supplyUSD).sum ∧
      totalBorrowUSD cps = (pools.map borrowUSD).sum ∧
      totalYieldUSD cps = (pools.map netYieldFormula).sum
  | [], cps, h => by
    simp only [computePools, Option.some_inj] at h
    subst h
    refine ⟨?_, ?_, ?_⟩ <;> rfl
  | pool :: pools, cps, h => by
    rcases computePools_cons h with ⟨cp, cps2, hc, hcs, hcons⟩
    subst hcons
    rcases computePools_totals pools cps2 hcs with ⟨ih1, ih2, ih3⟩
    rcases computePool_pieces hc with ⟨p1, p2, p3⟩
    rw [totalSupplyUSD_eq] at ih1 ⊢
    rw [totalBorrowUSD_eq] at ih2 ⊢
    rw [totalYieldUSD_eq] at ih3 ⊢
    simp only [List.map_cons, List.sum_cons, ih1, ih2, ih3, p1, p2, p3]
    exact ⟨trivial, trivial, trivial⟩

theorem computePools_of_lengths :
    ∀ pools : List Pool,
      (∀ pool ∈ pools, pool.supply.length = pool.receive.length ∧
        pool.borrow.length = pool.pay.length) →
      ∃ cps, computePools pools = some cps
  | [], _ => ⟨[], rfl⟩
  | pool :: pools, h => by
    have hp := h pool (List.mem_cons_self pool pools)
    have hcp : computePool pool ≠ none := by
      rw [Ne, computePool_eq_none_iff, not_or, Nat.not_lt, Nat.not_lt]
      exact ⟨le_of_eq hp.1, le_of_eq hp.2⟩
    rcases Option.ne_none_iff_exists.mp hcp with ⟨cp, hcp2⟩
    rcases computePools_of_lengths pools
      (fun q hq => h q (List.mem_cons_of_mem pool hq)) with ⟨cps2, hcps2⟩
    refine ⟨cp :: cps2, ?_⟩
    rw [computePools, ← hcp2, hcps2]
    rfl

/-- Concrete evaluation of the scenario pool. -/
theorem computePool_exPool5_eq :
    computePool exPool5 = some
      { name := "aave-pool"
        receiveUSD := [{ asset := "USDC", assetUSD := 100, apy := 5, receiveUSD := 5 }]
        payUSD := []
        netYieldUSD := 5 } := by
  simp +decide [computePool, receiveUSDLegs, payUSDLegs, mkReceiveEntry, mkPayEntry,
    exPool5, usdcYieldAsset]

/-- Claim C5: for every pool with equal-length paired arrays, computePool
derives receiveUSD[i] = receive[i].apy / 100 * supply[i].amount *
supply[i].asset.price for each index of supply, symmetrically payUSD[i]
from borrow[i] and pay[i].apy, and netYieldUSD is the sum of the receiveUSD
legs minus the sum of the payUSD legs; on the scenario pool with one
supply leg of amount 100 at price 1 and apy 5 the computed receiveUSD leg
is exactly 5 and, there being no pay legs, netYieldUSD equals the summed
receiveUSD legs. -/
theorem c5_computePool (pool : Pool)
    (hs : pool.supply.length = pool.receive.length)
    (hb : pool.borrow.length = pool.pay.length) :
    (∃ cp, computePool pool = some cp ∧
      cp.receiveUSD.length = pool.supply.length ∧
      cp.payUSD.length = pool.borrow.length ∧
      (∀ i, i < pool.supply.length →
        ∃ supply receive entry,
          pool.supply.get? i = some supply ∧ pool.receive.get? i = some receive ∧
          cp.receiveUSD.get? i = some entry ∧
          entry.receiveUSD = receive.apy / 100 * supply.amount * supply.asset.price) ∧
      (∀ i, i < pool.borrow.length →
        ∃ borrow pay entry,
          pool.borrow.get? i = some borrow ∧ pool.pay.get? i = some pay ∧
          cp.payUSD.get? i = some entry ∧
          entry.payUSD = pay.apy / 100 * borrow.amount * borrow.asset.price) ∧
      cp.netYieldUSD =
        (cp.receiveUSD.map (fun e => e.receiveUSD)).sum -
          (cp.payUSD.map (fun e => e.payUSD)).sum) ∧
    (∃ cp5, computePool exPool5 = some cp5 ∧
      cp5.receiveUSD.map (fun e => e.receiveUSD) = [5] ∧
      cp5.payUSD = [] ∧
      cp5.netYieldUSD = (cp5.receiveUSD.map (fun e => e.receiveUSD)).sum) := by
  constructor
  · have hne : computePool pool ≠ none := by
      rw [Ne, computePool_eq_none_iff, not_or, Nat.not_lt, Nat.not_lt]
      exact ⟨le_of_eq hs, le_of_eq hb⟩
    rcases Option.ne_none_iff_exists.mp hne with ⟨cp, hcp⟩
    rcases computePool_eq_some hcp.symm with ⟨_, hr, hp, hn⟩
    have hzr : (pool.supply.zip pool.receive).length = pool.supply.length := by
      rw [List.length_zip, hs, Nat.min_self]
    have hzp : (pool.borrow.zip pool.pay).length = pool.borrow.length := by
      rw [List.length_zip, hb, Nat.min_self]
    refine ⟨cp, hcp.symm, ?_, ?_, ?_, ?_, hn⟩
    · rw [hr, List.length_map, hzr]
    · rw [hp, List.length_map, hzp]
    · intro i hi
      have hir : i < pool.receive.length := hs ▸ hi
      have hiz : i < (pool.supply.zip pool.receive).length := hzr ▸ hi
      refine ⟨pool.supply.get ⟨i, hi⟩, pool.receive.get ⟨i, hir⟩,
        mkReceiveEntry (pool.supply.get ⟨i, hi⟩) (pool.receive.get ⟨i, hir⟩),
        List.get?_eq_get hi, List.get?_eq_get hir, ?_, rfl⟩
      rw [hr, List.get?_map, List.get?_eq_get hiz, Option.map_some']
      have hzget : (pool.supply.zip pool.receive).get ⟨i, hiz⟩ =
          (pool.supply.get ⟨i, hi⟩, pool.receive.get ⟨i, hir⟩) := by
        simp [List.get_eq_getElem, List.getElem_zip]
      rw [hzget]
    · intro i hi
      have hip : i < pool.pay.length := hb ▸ hi
      have hiz : i < (pool.borrow.zip pool.pay).length := hzp ▸ hi
      refine ⟨pool.borrow.get ⟨i, hi⟩, pool.pay.get ⟨i, hip⟩,
        mkPayEntry (pool.borrow.get ⟨i, hi⟩) (pool.pay.get ⟨i, hip⟩),
        List.get?_eq_get hi, List.get?_eq_get hip, ?_, rfl⟩
      rw [hp, List.get?_map, List.get?_eq_get hiz, Option.map_some']
      have hzget : (pool.borrow.zip pool.pay).get ⟨i, hiz⟩ =
          (pool.borrow.get ⟨i, hi⟩, pool.pay.get ⟨i, hip⟩) := by
        simp [List.get_eq_getElem, List.getElem_zip]
      rw [hzget]
  · refine ⟨_, computePool_exPool5_eq, ?_, rfl, ?_⟩ <;> norm_num

/-- Witness for claim C5 at the scenario pool. -/
theorem c5_computePool_witness :
    (∃ cp, computePool exPool5 = some cp ∧
      cp.receiveUSD.length = exPool5.supply.length ∧
      cp.payUSD.length = exPool5.borrow.length ∧
      (∀ i, i < exPool5.supply.length →
        ∃ supply receive entry,
          exPool5.supply.get? i = some supply ∧ exPool5.receive.get? i = some receive ∧
          cp.receiveUSD.get? i = some entry ∧
          entry.receiveUSD = receive.apy / 100 * supply.amount * supply.asset.price) ∧
      (∀ i, i < exPool5.borrow.length →
        ∃ borrow pay entry,
          exPool5.borrow.get? i = some borrow ∧ exPool5.pay.get? i = some pay ∧
          cp.payUSD.get? i = some entry ∧
          entry.payUSD = pay.apy / 100 * borrow.amount * borrow.asset.price) ∧
      cp.netYieldUSD =
        (cp.receiveUSD.map (fun e => e.receiveUSD)).sum -
          (cp.payUSD.map (fun e => e.payUSD)).sum) ∧
    (∃ cp5, computePool exPool5 = some cp5 ∧
      cp5.receiveUSD.map (fun e => e.receiveUSD) = [5] ∧
      cp5.payUSD = [] ∧
      cp5.netYieldUSD = (cp5.receiveUSD.map (fun e => e.receiveUSD)).sum) :=
  c5_computePool exPool5 (by decide) (by decide)

/-- Claim C7 counterexample: a pool whose receive array is longer than its
supply array (here no supply leg and one receive leg) computes with no error
at all, the extra receive leg silently ignored, refuting that every paired
length mismatch raises a data-contract error. -/
theorem c7_counterexample :
    exPool7.supply.length ≠ exPool7.receive.length ∧
    computePool exPool7 =
      some { name := "aave-pool-extra", receiveUSD := [], payUSD := [], netYieldUSD := 0 } := by
  constructor
  · decide
  · simp +decide [computePool, receiveUSDLegs, payUSDLegs, exPool7]

/-- Claim C7 amended: the yield computation faults (a thrown undefined
property access, modelled as none) exactly when the receive array is
shorter than the supply array or the pay array is shorter than the borrow
array; receive and pay legs beyond the paired prefix are silently ignored,
the computation reading only the prefixes of receive and pay of the lengths
of supply and borrow. -/
theorem c7_amended (pool : Pool) :
    (computePool pool = none ↔
      pool.receive.length < pool.supply.length ∨
        pool.pay.length < pool.borrow.length) ∧
    computePool pool =
      computePool
        { pool with
          receive := pool.receive.take pool.supply.length
          pay := pool.pay.take pool.borrow.length } := by
  refine ⟨computePool_eq_none_iff pool, ?_⟩
  simp only [computePool, receiveUSDLegs_take, payUSDLegs_take]

/-- Claim C2: for every yield response of equal-length paired arrays, the
aggregation satisfies totalSupplyUSD = the sum of amount * price over all
supply legs, totalBorrowUSD the analogous sum over all borrow legs and
totalYieldUSD = the sum of the per-pool net yields; the average APY the
tool reports, however, is totalYieldUSD / totalSupplyUSD with no
multiplication by 100: on the one-pool response with totalYieldUSD 5 and
totalSupplyUSD 100 the report is 1/20 where the claimed formula gives 5. -/
theorem c2_yieldTotals (resp : YieldResponse)
    (hlen : ∀ pool ∈ resp.pools, pool.supply.length = pool.receive.length ∧
      pool.borrow.length = pool.pay.length) :
    (∃ cps, computePools resp.pools = some cps ∧
      totalSupplyUSD cps = (resp.pools.map supplyUSD).sum ∧
      totalBorrowUSD cps = (resp.pools.map borrowUSD).sum ∧
      totalYieldUSD cps = (resp.pools.map netYieldFormula).sum) ∧
    (∃ cps5, computePools exYieldResponse.pools = some cps5 ∧
      totalSupplyUSD cps5 = 100 ∧ totalYieldUSD cps5 = 5 ∧
      avgApyReported cps5 = ENum.fin (1 / 20) ∧
      totalYieldUSD cps5 / totalSupplyUSD cps5 * 100 = 5 ∧
      (1 / 20 : ℚ) ≠ 5) := by
  constructor
  · rcases computePools_of_lengths resp.pools hlen with ⟨cps, hcps⟩
    rcases computePools_totals resp.pools cps hcps with ⟨h1, h2, h3⟩
    exact ⟨cps, hcps, h1, h2, h3⟩
  · have hcps5 : computePools exYieldResponse.pools = some
        [{ name := "aave-pool"
           receiveUSD := [{ asset := "USDC", assetUSD := 100, apy := 5, receiveUSD := 5 }]
           payUSD := []
           netYieldUSD := 5 }] := by
      show computePools [exPool5] = _
      rw [computePools, computePool_exPool5_eq, computePools]
      rfl
    refine ⟨_, hcps5, ?_, ?_, ?_, ?_, ?_⟩
    · norm_num [totalSupplyUSD]
    · norm_num [totalYieldUSD]
    · norm_num [avgApyReported, totalYieldUSD, totalSupplyUSD, jsDiv]
    · norm_num [totalYieldUSD, totalSupplyUSD]
    · norm_num

/-! Lemmas about the division by zero sentinels. -/

theorem jsDiv_zero (v : ℚ) : jsDiv v 0 = signSentinel v := by
  unfold jsDiv signSentinel
  rw [if_neg (show ¬ (0 : ℚ) ≠ 0 from fun hh => hh rfl)]

theorem eMul100_jsDiv_zero (v : ℚ) : eMul100 (jsDiv v 0) = signSentinel v := by
  rw [jsDiv_zero]
  unfold signSentinel
  split_ifs <;> rfl

/-! A first-match characterization of List.find?. -/

theorem find?_first {α : Type} (p : α → Bool) :
    ∀ (l : List α) (x : α), l.find? p = some x →
      p x = true ∧ ∃ l1 l2, l = l1 ++ x :: l2 ∧ ∀ y ∈ l1, p y = false
  | [], x, h => by simp [List.find?] at h
  | a :: l, x, h => by
    cases hp : p a with
    | true =>
      rw [List.find?_cons, hp] at h
      have hx : a = x := Option.some_inj.mp h
      subst hx
      exact ⟨hp, [], l, rfl, fun y hy => absurd hy (List.not_mem_nil y)⟩
    | false =>
      rw [List.find?_cons, hp] at h
      rcases find?_first p l x h with ⟨hx, l1, l2, hl, hl1⟩
      refine ⟨hx, a :: l1, l2, by rw [hl, List.cons_append], ?_⟩
      intro y hy
      rcases List.mem_cons.mp hy with h1 | h1
      · rw [h1]
        exact hp
      · exact hl1 y h1

/-- Witness for claim C2 at the one-pool scenario response. -/
theorem c2_yieldTotals_witness :
    (∃ cps, computePools exYieldResponse.pools = some cps ∧
      totalSupplyUSD cps = (exYieldResponse.pools.map supplyUSD).sum ∧
      totalBorrowUSD cps = (exYieldResponse.pools.map borrowUSD).sum ∧
      totalYieldUSD cps = (exYieldResponse.pools.map netYieldFormula).sum) ∧
    (∃ cps5, computePools exYieldResponse.pools = some cps5 ∧
      totalSupplyUSD cps5 = 100 ∧ totalYieldUSD cps5 = 5 ∧
      avgApyReported cps5 = ENum.fin (1 / 20) ∧
      totalYieldUSD cps5 / totalSupplyUSD cps5 * 100 = 5 ∧
      (1 / 20 : ℚ) ≠ 5) :=
  c2_yieldTotals exYieldResponse (by decide)

/-- Claim C1: for every snapshot the breakdown accumulates each asset's
usdValue, over all assets of all positions, into a mapping keyed by asset
type with unique keys, and returns the entries as type, value and
percentage = value / snapshot.usdValue * 100 records, sorted descending by
value with ties broken by first-encountered type; on the scenario snapshot
with usdValue 10000 and assets of 6000 stablecoin and 4000 native USD, the
result is the stablecoin entry at 60 percent then the native entry at 40
percent. -/
theorem c1_breakdownByAssetType (data : PortfolioLatestResponse) :
    ((assetTypeBreakdown data).map (fun e => e.type)).Nodup ∧
    (∀ e ∈ assetTypeBreakdown data,
      e.value = typeTotal data e.type ∧
      e.percentage = eMul100 (jsDiv e.value data.usdValue)) ∧
    (∀ t, (∃ e ∈ assetTypeBreakdown data, e.type = t) ↔
      ∃ a ∈ allAssets data, a.type = t) ∧
    (assetTypeBreakdown data).Pairwise (fun x y => y.value ≤ x.value) ∧
    (assetTypeBreakdown data).Pairwise (fun x y => x.value = y.value →
      firstTypeIdx data x.type < firstTypeIdx data y.type) ∧
    assetTypeBreakdown exSnapshot1 =
      [{ type := "STABLECOIN", value := 6000, percentage := .fin 60 },
       { type := "NATIVE", value := 4000, percentage := .fin 40 }] :=
  ⟨breakdown_types_nodup data, breakdown_entry_spec data,
    breakdown_types_cover data, breakdown_sorted data, breakdown_tie data,
    breakdown_scenario⟩

/-- Claim C4: for every snapshot, the major holdings are exactly the assets
flattened across the positions whose usdValue is at least 1000, projected to
name, symbol, value and amount, sorted descending by value with ties in
encounter order, and never contain an asset below the 1000 threshold. -/
theorem c4_majorHoldings (data : PortfolioLatestResponse) :
    (∀ e ∈ majorAssets data, 1000 ≤ e.value) ∧
    List.Perm (majorAssets data)
      (((allAssets data).filter (fun asset => decide (1000 ≤ asset.usdValue))).map
        projectAsset) ∧
    (majorAssets data).Pairwise (fun x y => y.value ≤ x.value) ∧
    majorAssets data =
      (sortByDesc (fun p => p.2.value)
        (withIdx 0 (((allAssets data).filter
          (fun asset => decide (1000 ≤ asset.usdValue))).map projectAsset))).map
        Prod.snd ∧
    (sortByDesc (fun p => p.2.value)
      (withIdx 0 (((allAssets data).filter
        (fun asset => decide (1000 ≤ asset.usdValue))).map projectAsset))).Pairwise
      (fun p q => p.2.value = q.2.value → p.1 < q.1) := by
  have hpre : majorAssets data = sortByDesc (fun a => a.value)
      (((allAssets data).filter (fun asset => decide (1000 ≤ asset.usdValue))).map
        projectAsset) := by
    unfold majorAssets
    rw [majorPre_eq]
  refine ⟨?_, ?_, ?_, ?_, ?_⟩
  · intro e he
    rw [hpre] at he
    have he2 := (sortByDesc_perm _ _).mem_iff.mp he
    rcases List.mem_map.mp he2 with ⟨a, ha, rfl⟩
    exact of_decide_eq_true (List.mem_filter.mp ha).2
  · rw [hpre]
    exact sortByDesc_perm _ _
  · rw [hpre]
    exact sortByDesc_sorted _ _
  · rw [hpre]
    have h := sortByDesc_map (fun a : MajorAsset => a.value)
      (Prod.snd : ℕ × MajorAsset → MajorAsset)
      (withIdx 0 (((allAssets data).filter
        (fun asset => decide (1000 ≤ asset.usdValue))).map projectAsset))
    rw [withIdx_map_snd] at h
    exact h.symm
  · exact sortByDesc_tie _ _ _ (withIdx_pairwise 0 _)

/-- Claim C9 counterexample: on a snapshot with usdValue 0 and positive
asset values, the breakdown percentages are the Infinity sentinel, not NaN
as the claim states for the undefined breakdown percentage. -/
theorem c9_counterexample :
    exSnapshot0.usdValue = 0 ∧
    (assetTypeBreakdown exSnapshot0).map (fun e => e.percentage) =
      [ENum.posInf, ENum.posInf] ∧
    ENum.posInf ≠ ENum.nan := by
  refine ⟨rfl, ?_, by decide⟩
  simp +decide [assetTypeBreakdown, mkBreakdownEntry, assetTypeMap, accumStep,
    mapGet, mapSet, exSnapshot0, exPosition1, stableAsset, nativeAsset, sortByDesc,
    List.insertionSort, List.orderedInsert, List.find?, jsDiv, eMul100]

/-- Claim C9 amended: for a snapshot with usdValue 0 the computation never
faults: every breakdown percentage is the sign-determined IEEE sentinel
(Infinity for a positive accumulated value, -Infinity for a negative one,
NaN for zero); a gainer or loser percent with prevUsdValue 0 is likewise
the sign-determined sentinel of diffUsdValue; and no other output field is
affected, the types and values of the breakdown being independent of the
divisor. -/
theorem c9_amended (data : PortfolioLatestResponse) (h : data.usdValue = 0) :
    (∀ e ∈ assetTypeBreakdown data, e.percentage = signSentinel e.value) ∧
    (∀ item : GainerLoserItem, item.prevUsdValue = 0 →
      reportedGainerPercent item = signSentinel item.diffUsdValue) ∧
    (∀ q : ℚ,
      (assetTypeBreakdown { data with usdValue := q }).map (fun e => (e.type, e.value)) =
        (assetTypeBreakdown data).map (fun e => (e.type, e.value))) := by
  refine ⟨?_, ?_, ?_⟩
  · intro e he
    rcases breakdown_entry_spec data e he with ⟨_, hp⟩
    rw [hp, h, eMul100_jsDiv_zero]
  · intro item hprev
    unfold reportedGainerPercent
    rw [hprev, jsDiv_zero]
  · intro q
    rw [breakdown_tv, breakdown_tv]

/-- Witness for claim C9 amended, at the zero-total snapshot. -/
theorem c9_amended_witness :
    (∀ e ∈ assetTypeBreakdown exSnapshot0, e.percentage = signSentinel e.value) ∧
    (∀ item : GainerLoserItem, item.prevUsdValue = 0 →
      reportedGainerPercent item = signSentinel item.diffUsdValue) ∧
    (∀ q : ℚ,
      (assetTypeBreakdown { exSnapshot0 with usdValue := q }).map
          (fun e => (e.type, e.value)) =
        (assetTypeBreakdown exSnapshot0).map (fun e => (e.type, e.value))) :=
  c9_amended exSnapshot0 rfl

/-- Claim C3: for every performance response, topGainers is the gainers
sorted descending by diffUsdValue and topLosers the losers sorted ascending,
each truncated to at most five, every kept item ranking at least as high as
every excluded one; the percent printed for an item, however, is
diffUsdValue / prevUsdValue with no multiplication by 100: on the gainer
with diff 50 over prev 100 the report is 1/2 where the claimed formula
gives 50. -/
theorem c3_topGainersLosers (resp : PortfolioPerformanceResponse) :
    (topGainers resp).length ≤ 5 ∧
    (topLosers resp).length ≤ 5 ∧
    List.Perm (sortByDesc (fun g => g.diffUsdValue) resp.gainers) resp.gainers ∧
    List.Perm (sortByAsc (fun l2 => l2.diffUsdValue) resp.losers) resp.losers ∧
    (topGainers resp).Pairwise (fun x y => y.diffUsdValue ≤ x.diffUsdValue) ∧
    (topLosers resp).Pairwise (fun x y => x.diffUsdValue ≤ y.diffUsdValue) ∧
    (∀ x ∈ topGainers resp,
      ∀ y ∈ (sortByDesc (fun g => g.diffUsdValue) resp.gainers).drop 5,
        y.diffUsdValue ≤ x.diffUsdValue) ∧
    (∀ x ∈ topLosers resp,
      ∀ y ∈ (sortByAsc (fun l2 => l2.diffUsdValue) resp.losers).drop 5,
        x.diffUsdValue ≤ y.diffUsdValue) ∧
    (reportedGainerPercent exGainer = ENum.fin (1 / 2) ∧
      exGainer.diffUsdValue / exGainer.prevUsdValue * 100 = 50 ∧
      (1 / 2 : ℚ) ≠ 50) := by
  have hsg : List.Sorted (fun a b => b.diffUsdValue ≤ a.diffUsdValue)
      (sortByDesc (fun g => g.diffUsdValue) resp.gainers) := sortByDesc_sorted _ _
  have hsl : List.Sorted (fun a b => a.diffUsdValue ≤ b.diffUsdValue)
      (sortByAsc (fun l2 => l2.diffUsdValue) resp.losers) := sortByAsc_sorted _ _
  refine ⟨List.length_take_le 5 _, List.length_take_le 5 _,
    sortByDesc_perm _ _, sortByAsc_perm _ _, ?_, ?_, ?_, ?_, ?_, ?_, ?_⟩
  · exact hsg.sublist (List.take_sublist 5 _)
  · exact hsl.sublist (List.take_sublist 5 _)
  · intro x hx y hy
    exact hsg.rel_of_mem_take_of_mem_drop hx hy
  · intro x hx y hy
    exact hsl.rel_of_mem_take_of_mem_drop hx hy
  · norm_num [reportedGainerPercent, exGainer, jsDiv]
  · norm_num [exGainer]
  · norm_num

/-- Claim C8 counterexample: the performance tool sorts the response's own
arrays in place, so a response whose gainers arrive in ascending order is
changed by the operation. -/
theorem c8_counterexample : performancePost exPerfResponse ≠ exPerfResponse := by
  intro h
  have h2 := congrArg (fun r => r.gainers.map (fun g => g.id)) h
  simp +decide [performancePost, exPerfResponse, exGainer, exGainerSmall, sortByDesc,
    sortByAsc, List.insertionSort, List.orderedInsert] at h2

/-- Claim C8 amended: the snapshot and yield analytics leave their inputs
unchanged; the performance ranking, however, sorts the changeByType, gainers
and losers arrays of the response in place, so after the operation those
three arrays are sorted permutations of their previous contents while every
scalar field is unchanged. -/
theorem c8_amended (data : PortfolioLatestResponse) (resp : YieldResponse)
    (perf : PortfolioPerformanceResponse) :
    portfolioPost data = data ∧
    yieldPost resp = resp ∧
    (performancePost perf).startsAt = perf.startsAt ∧
    (performancePost perf).endsAt = perf.endsAt ∧
    (performancePost perf).usdValueChange = perf.usdValueChange ∧
    (performancePost perf).lastSnapshotUsdValue = perf.lastSnapshotUsdValue ∧
    List.Perm (performancePost perf).changeByType perf.changeByType ∧
    List.Perm (performancePost perf).gainers perf.gainers ∧
    List.Perm (performancePost perf).losers perf.losers ∧
    (performancePost perf).changeByType.Pairwise
      (fun x y => y.diffUsdValue ≤ x.diffUsdValue) ∧
    (performancePost perf).gainers.Pairwise
      (fun x y => y.diffUsdValue ≤ x.diffUsdValue) ∧
    (performancePost perf).losers.Pairwise
      (fun x y => x.diffUsdValue ≤ y.diffUsdValue) :=
  ⟨rfl, rfl, rfl, rfl, rfl, rfl,
    sortByDesc_perm _ _, sortByDesc_perm _ _, sortByAsc_perm _ _,
    sortByDesc_sorted _ _, sortByDesc_sorted _ _, sortByAsc_sorted _ _⟩

/-- Claim C6: the locator returns the first entry when no query is given;
otherwise the first case-insensitive exact name match wins, else the first
case-insensitive substring match in list order, else it fails with a
not-found error listing every portfolio name; on the Main and Trading list,
main resolves exactly, rad resolves by substring to Trading, and nope fails
listing Main, Trading. -/
theorem c6_findPortfolio (portfolios : List PortfolioItem) (hne : portfolios ≠ []) :
    (∀ first rest, portfolios = first :: rest →
      findPortfolio portfolios none = .ok (first.slug, first.name)) ∧
    (∀ q p, portfolios.find? (fun p2 => toLowerStr p2.name == toLowerStr q) = some p →
      findPortfolio portfolios (some q) = .ok (p.slug, p.name) ∧
      toLowerStr p.name = toLowerStr q ∧
      (∃ l1 l2, portfolios = l1 ++ p :: l2 ∧
        ∀ x ∈ l1, toLowerStr x.name ≠ toLowerStr q)) ∧
    (∀ q p, portfolios.find? (fun p2 => toLowerStr p2.name == toLowerStr q) = none →
      portfolios.find? (fun p2 => strIncludes (toLowerStr p2.name) (toLowerStr q)) =
        some p →
      findPortfolio portfolios (some q) = .ok (p.slug, p.name) ∧
      strIncludes (toLowerStr p.name) (toLowerStr q) = true ∧
      (∀ x ∈ portfolios, toLowerStr x.name ≠ toLowerStr q) ∧
      (∃ l1 l2, portfolios = l1 ++ p :: l2 ∧
        ∀ x ∈ l1, strIncludes (toLowerStr x.name) (toLowerStr q) = false)) ∧
    (∀ q, portfolios.find? (fun p2 => toLowerStr p2.name == toLowerStr q) = none →
      portfolios.find? (fun p2 => strIncludes (toLowerStr p2.name) (toLowerStr q)) =
        none →
      findPortfolio portfolios (some q) =
        .error ("Portfolio \"" ++ q ++ "\" not found. Available portfolios: " ++
          String.intercalate ", " (portfolios.map (fun p2 => p2.name)))) ∧
    (findPortfolio exPortfolios (some "main") = .ok ("main-slug", "Main") ∧
      findPortfolio exPortfolios (some "rad") = .ok ("trading-slug", "Trading") ∧
      findPortfolio exPortfolios (some "nope") =
        .error "Portfolio \"nope\" not found. Available portfolios: Main, Trading") := by
  refine ⟨?_, ?_, ?_, ?_, ?_, ?_, ?_⟩
  · intro first rest hp
    subst hp
    rfl
  · intro q p h
    cases portfolios with
    | nil => exact absurd h (by simp)
    | cons f rest =>
      rcases find?_first _ _ _ h with ⟨hpx, l1, l2, hl, hl1⟩
      refine ⟨?_, ?_, l1, l2, hl, ?_⟩
      · simp only [findPortfolio]
        rw [h]
      · exact beq_iff_eq.mp hpx
      · intro x hx heq
        have hf := hl1 x hx
        rw [beq_iff_eq.mpr heq] at hf
        exact Bool.noConfusion hf
  · intro q p hex h
    cases portfolios with
    | nil => exact absurd h (by simp)
    | cons f rest =>
      rcases find?_first _ _ _ h with ⟨hpx, l1, l2, hl, hl1⟩
      refine ⟨?_, hpx, ?_, l1, l2, hl, hl1⟩
      · simp only [findPortfolio]
        rw [hex, h]
      · intro x hx heq
        exact List.find?_eq_none.mp hex x hx (beq_iff_eq.mpr heq)
  · intro q hex hsub
    cases portfolios with
    | nil => exact absurd hne (by simp)
    | cons f rest =>
      simp only [findPortfolio]
      rw [hex, hsub]
  · have h1 : (toLowerStr "Main" == toLowerStr "main") = true := by decide
    simp +decide [findPortfolio, exPortfolios, List.find?, h1]
  · have h1 : (toLowerStr "Main" == toLowerStr "rad") = false := by decide
    have h2 : (toLowerStr "Trading" == toLowerStr "rad") = false := by decide
    have h3 : strIncludes (toLowerStr "Main") (toLowerStr "rad") = false := by decide
    have h4 : strIncludes (toLowerStr "Trading") (toLowerStr "rad") = true := by decide
    simp +decide [findPortfolio, exPortfolios, List.find?, h1, h2, h3, h4]
  · have h1 : (toLowerStr "Main" == toLowerStr "nope") = false := by decide
    have h2 : (toLowerStr "Trading" == toLowerStr "nope") = false := by decide
    have h3 : strIncludes (toLowerStr "Main") (toLowerStr "nope") = false := by decide
    have h4 : strIncludes (toLowerStr "Trading") (toLowerStr "nope") = false := by decide
    have h5 : String.intercalate ", " ["Main", "Trading"] = "Main, Trading" := by decide
    simp +decide [findPortfolio, exPortfolios, List.find?, h1, h2, h3, h4, h5]

/-- Witness for claim C6 at the Main and Trading portfolio list. -/
theorem c6_findPortfolio_witness :
    (∀ first rest, exPortfolios = first :: rest →
      findPortfolio exPortfolios none = .ok (first.slug, first.name)) ∧
    (∀ q p, exPortfolios.find? (fun p2 => toLowerStr p2.name == toLowerStr q) = some p →
      findPortfolio exPortfolios (some q) = .ok (p.slug, p.name) ∧
      toLowerStr p.name = toLowerStr q ∧
      (∃ l1 l2, exPortfolios = l1 ++ p :: l2 ∧
        ∀ x ∈ l1, toLowerStr x.name ≠ toLowerStr q)) ∧
    (∀ q p, exPortfolios.find? (fun p2 => toLowerStr p2.name == toLowerStr q) = none →
      exPortfolios.find? (fun p2 => strIncludes (toLowerStr p2.name) (toLowerStr q)) =
        some p →
      findPortfolio exPortfolios (some q) = .ok (p.slug, p.name) ∧
      strIncludes (toLowerStr p.name) (toLowerStr q) = true ∧
      (∀ x ∈ exPortfolios, toLowerStr x.name ≠ toLowerStr q) ∧
      (∃ l1 l2, exPortfolios = l1 ++ p :: l2 ∧
        ∀ x ∈ l1, strIncludes (toLowerStr x.name) (toLowerStr q) = false)) ∧
    (∀ q, exPortfolios.find? (fun p2 => toLowerStr p2.name == toLowerStr q) = none →
      exPortfolios.find? (fun p2 => strIncludes (toLowerStr p2.name) (toLowerStr q)) =
        none →
      findPortfolio exPortfolios (some q) =
        .error ("Portfolio \"" ++ q ++ "\" not found. Available portfolios: " ++
          String.intercalate ", " (exPortfolios.map (fun p2 => p2.name)))) ∧
    (findPortfolio exPortfolios (some "main") = .ok ("main-slug", "Main") ∧
      findPortfolio exPortfolios (some "rad") = .ok ("trading-slug", "Trading") ∧
      findPortfolio exPortfolios (some "nope") =
        .error "Portfolio \"nope\" not found. Available portfolios: Main, Trading") :=
  c6_findPortfolio exPortfolios (by simp [exPortfolios])

/-- Claim C10: with a null session cookie, getUserData, getPortfolioData and
getYieldData each throw the not-authenticated error before issuing any
request, while getPerformanceData performs no authentication check and
issues its request unconditionally. -/
theorem c10_authGuards :
    getUserDataRequest none = .error notAuthenticatedMsg ∧
    (∀ slug, getPortfolioDataRequest none slug = .error notAuthenticatedMsg) ∧
    (∀ slug, getYieldDataRequest none slug = .error notAuthenticatedMsg) ∧
    (∀ slug startDate, getPerformanceDataRequest none slug startDate =
      .ok ("https://lighthouse.one/v1/workspaces/" ++ slug ++
        "/performance?startsAt=" ++ startDate)) :=
  ⟨rfl, fun _ => rfl, fun _ => rfl, fun _ _ => rfl⟩

end Lighthouse
